import Mathlib

/-!
# Local attachment store (idb.js) — shallow embedding

The repository's local attachment store (`idb.js`) keeps uploaded files in an
IndexedDB object store named `files`, keyed by the string field `key`
(`keyPath: "key"`), with two non-unique secondary indexes: `byJob` on the
`jobKey` field and `byUser` on the `userId` field.

We embed the store as a list of records. IndexedDB semantics used:
* `objectStore.put(rec)` with a `keyPath` is an upsert on `rec.key`
  (it replaces any existing record with the same primary key);
* `objectStore.get(k)` is a point lookup by primary key, resolving `null`
  (here `none`) when absent;
* `objectStore.delete(k)` removes the record with primary key `k` if present
  and is a no-op otherwise;
* `index.getAll(v)` returns every record whose indexed field equals `v`.

Time (`Date.now()`) is passed in explicitly as a `now : Nat` parameter, and
the sequencing of the per-record deletions in the cascade operations is
modelled as a left fold (the deletions commute, so any interleaving of the
`Promise.all` in `deleteFilesForJob` yields the same final store).
-/

namespace Idb

/-- A file object as handed to `putFile` by the UI layer: its `name`, its
MIME `type` (the empty string when the browser does not know the type, the
falsy case of `file.type || "application/octet-stream"`), and its bytes. -/
structure StoredFile where
  name : String
  type : String
  bytes : List Nat
deriving DecidableEq, Repr

/-- One record of the `files` object store, exactly the object literal built
by `putFile`: `{ key, jobKey, userId, jobId, type, filename, mime,
uploadedAt, blob }`. -/
structure FileRec where
  key : String
  jobKey : String
  userId : String
  jobId : String
  type : String
  filename : String
  mime : String
  uploadedAt : Nat
  blob : StoredFile
deriving DecidableEq, Repr

/-- The `files` object store: its records, in insertion order. -/
abbrev Store := List FileRec

/-- `makeKey({userId, jobId, type})` = `` `${userId}|${jobId}|${type}` ``. -/
def makeKey (userId jobId type_ : String) : String :=
  userId ++ "|" ++ jobId ++ "|" ++ type_

/-- `makeJobKey({userId, jobId})` = `` `${userId}|${jobId}` ``. -/
def makeJobKey (userId jobId : String) : String :=
  userId ++ "|" ++ jobId

/-- The record `putFile` constructs before writing:
`mime` is `file.type || "application/octet-stream"` and `blob` is the file
object itself. -/
def mkRecord (userId jobId type_ : String) (file : StoredFile) (now : Nat) :
    FileRec :=
  { key := makeKey userId jobId type_
    jobKey := makeJobKey userId jobId
    userId := userId
    jobId := jobId
    type := type_
    filename := file.name
    mime := if file.type = "" then "application/octet-stream" else file.type
    uploadedAt := now
    blob := file }

/-- `putFile`: builds the record and commits it with `store.put(rec)`, an
upsert on the primary key `rec.key`. Returns the stored record and the new
store contents. -/
def putFile (s : Store) (userId jobId type_ : String) (file : StoredFile)
    (now : Nat) : FileRec × Store :=
  let r := mkRecord userId jobId type_ file now
  (r, s.filter (fun q => q.key ≠ r.key) ++ [r])

/-- `getFile`: point lookup `store.get(makeKey(...))`, resolving
`req.result || null`. -/
def getFile (s : Store) (userId jobId type_ : String) : Option FileRec :=
  s.find? (fun r => r.key = makeKey userId jobId type_)

/-- `deleteFile`: `store.delete(makeKey(...))`; resolves `true` whether or
not a record was present. -/
def deleteFile (s : Store) (userId jobId type_ : String) : Store :=
  s.filter (fun r => r.key ≠ makeKey userId jobId type_)

/-- `listFilesForJob`: `index("byJob").getAll(makeJobKey(...))` — every
record whose `jobKey` field equals the queried job key. -/
def listFilesForJob (s : Store) (userId jobId : String) : List FileRec :=
  s.filter (fun r => r.jobKey = makeJobKey userId jobId)

/-- `deleteFilesForJob`: lists the job's files, then deletes each one by the
recomputed key `makeKey({userId, jobId, type: f.type})`. The `Promise.all`
is modelled as a sequential fold (key deletions commute). -/
def deleteFilesForJob (s : Store) (userId jobId : String) : Store :=
  (listFilesForJob s userId jobId).foldl
    (fun acc f => deleteFile acc userId jobId f.type) s

/-- `listFilesForUser`: `index("byUser").getAll(userId)` — every record
whose `userId` field equals the queried user id. -/
def listFilesForUser (s : Store) (userId : String) : List FileRec :=
  s.filter (fun r => r.userId = userId)

/-- `deleteFilesForUser`: lists the user's files, then deletes each one by
its own stored `rec.key`, all within one `readwrite` transaction. -/
def deleteFilesForUser (s : Store) (userId : String) : Store :=
  (listFilesForUser s userId).foldl
    (fun acc r => acc.filter (fun q => q.key ≠ r.key)) s

/-- A triple is valid when both ids are nonempty and the document type is in
the closed set `resume | cover | portfolio` announced by the module header
comment. -/
def validTriple (p a t : String) : Prop :=
  p ≠ "" ∧ a ≠ "" ∧ (t = "resume" ∨ t = "cover" ∨ t = "portfolio")

instance (p a t : String) : Decidable (validTriple p a t) := by
  unfold validTriple; infer_instance

/-- A string is separator-free when it does not contain the key separator
character `|`. -/
def barFree (s : String) : Prop := ('|' : Char) ∉ s.data

instance (s : String) : Decidable (barFree s) := by
  unfold barFree; infer_instance

/-- A record is well-formed when its `key` and `jobKey` fields are the index
projections `putFile` computes from its own `userId`/`jobId`/`type` fields.
Every record `putFile` writes is well-formed by construction. -/
def WellFormed (r : FileRec) : Prop :=
  r.key = r.jobKey ++ "|" ++ r.type ∧ r.jobKey = r.userId ++ "|" ++ r.jobId

instance (r : FileRec) : Decidable (WellFormed r) := by
  unfold WellFormed; infer_instance

/-- At most one record per primary key — the structural invariant IndexedDB
maintains for an object store with a `keyPath`. -/
def KeyFunctional (s : Store) : Prop :=
  ∀ r₁ ∈ s, ∀ r₂ ∈ s, r₁.key = r₂.key → r₁ = r₂

instance (s : Store) : Decidable (KeyFunctional s) := by
  unfold KeyFunctional; infer_instance

/-! ## Splitting concatenations at the separator character -/

/-- Splitting a list at a `c` known to occur right after a `c`-free prefix:
either the two decompositions agree, or the other prefix continues past this
occurrence of `c`. -/
lemma append_cons_eq_append_cons (c : Char) :
    ∀ (u u' v v' : List Char), c ∉ u →
      u ++ c :: v = u' ++ c :: v' →
      (u = u' ∧ v = v') ∨ ∃ w, u' = u ++ c :: w ∧ v = w ++ c :: v' := by
  intro u
  induction u with
  | nil =>
    intro u' v v' _ h
    cases u' with
    | nil => exact Or.inl ⟨rfl, by simpa using h⟩
    | cons d u'' =>
      simp only [List.nil_append, List.cons_append, List.cons.injEq] at h
      exact Or.inr ⟨u'', by simp [h.1, h.2], h.2⟩
  | cons d u ih =>
    intro u' v v' hc h
    cases u' with
    | nil =>
      simp only [List.cons_append, List.nil_append, List.cons.injEq] at h
      exact absurd (h.1 ▸ List.mem_cons_self d u) hc
    | cons d' u'' =>
      simp only [List.cons_append, List.cons.injEq] at h
      have hc' : c ∉ u := fun hm => hc (List.mem_cons_of_mem d hm)
      rcases ih u'' v v' hc' h.2 with ⟨h1, h2⟩ | ⟨w, h1, h2⟩
      · exact Or.inl ⟨by rw [h.1, h1], h2⟩
      · exact Or.inr ⟨w, by rw [h.1, h1, List.cons_append], h2⟩

/-- When both prefixes are `c`-free the decomposition at `c` is unique. -/
lemma append_cons_eq_append_cons_of_not_mem (c : Char)
    (u u' v v' : List Char) (hu : c ∉ u) (hu' : c ∉ u')
    (h : u ++ c :: v = u' ++ c :: v') : u = u' ∧ v = v' := by
  rcases append_cons_eq_append_cons c u u' v v' hu h with h' | ⟨w, hw, _⟩
  · exact h'
  · exact absurd (hw ▸ List.mem_append_right u (List.mem_cons_self c w)) hu'

/-- When both suffixes are `c`-free the decomposition at `c` is unique. -/
lemma append_cons_eq_append_cons_of_not_mem_right (c : Char)
    (u u' v v' : List Char) (hv : c ∉ v) (hv' : c ∉ v')
    (h : u ++ c :: v = u' ++ c :: v') : u = u' ∧ v = v' := by
  have hrev : v.reverse ++ c :: u.reverse = v'.reverse ++ c :: u'.reverse := by
    have := congrArg List.reverse h
    simpa [List.reverse_append] using this
  have hv₁ : c ∉ v.reverse := by simpa using hv
  have hv₂ : c ∉ v'.reverse := by simpa using hv'
  obtain ⟨h1, h2⟩ :=
    append_cons_eq_append_cons_of_not_mem c _ _ _ _ hv₁ hv₂ hrev
  exact ⟨List.reverse_injective h2, List.reverse_injective h1⟩

/-- The character data of `x ++ "|" ++ y`. -/
lemma data_sep (x y : String) :
    (x ++ "|" ++ y).data = x.data ++ '|' :: y.data := by
  simp [String.data_append]

/-- Unique first-separator splitting for strings: if the prefixes are
separator-free, `x ++ "|" ++ y = x' ++ "|" ++ y'` forces `x = x'` and
`y = y'`. -/
lemma sep_append_inj_left {x x' y y' : String}
    (hx : barFree x) (hx' : barFree x')
    (h : x ++ "|" ++ y = x' ++ "|" ++ y') : x = x' ∧ y = y' := by
  have hdata : x.data ++ '|' :: y.data = x'.data ++ '|' :: y'.data := by
    have := congrArg String.data h
    simpa [data_sep] using this
  obtain ⟨h1, h2⟩ :=
    append_cons_eq_append_cons_of_not_mem '|' _ _ _ _ hx hx' hdata
  exact ⟨String.ext h1, String.ext h2⟩

/-- Unique last-separator splitting for strings: if the suffixes are
separator-free, `x ++ "|" ++ y = x' ++ "|" ++ y'` forces `x = x'` and
`y = y'`. -/
lemma sep_append_inj_right {x x' y y' : String}
    (hy : barFree y) (hy' : barFree y')
    (h : x ++ "|" ++ y = x' ++ "|" ++ y') : x = x' ∧ y = y' := by
  have hdata : x.data ++ '|' :: y.data = x'.data ++ '|' :: y'.data := by
    have := congrArg String.data h
    simpa [data_sep] using this
  obtain ⟨h1, h2⟩ :=
    append_cons_eq_append_cons_of_not_mem_right '|' _ _ _ _ hy hy' hdata
  exact ⟨String.ext h1, String.ext h2⟩

/-- First-separator splitting when only the left prefix is known to be
separator-free: either the decompositions agree, or the other prefix runs
past this separator, forcing a separator inside `y`. -/
lemma sep_append_cases {x x' y y' : String} (hx : barFree x)
    (h : x ++ "|" ++ y = x' ++ "|" ++ y') :
    (x = x' ∧ y = y') ∨ ∃ w : List Char, y.data = w ++ '|' :: y'.data := by
  have hdata : x.data ++ '|' :: y.data = x'.data ++ '|' :: y'.data := by
    have := congrArg String.data h
    simpa [data_sep] using this
  rcases append_cons_eq_append_cons '|' _ _ _ _ hx hdata with ⟨h1, h2⟩ | ⟨w, _, h2⟩
  · exact Or.inl ⟨String.ext h1, String.ext h2⟩
  · exact Or.inr ⟨w, h2⟩

/-! ## Store-level helper lemmas -/

/-- Folding a list of filters is one filter with the conjunction of the
predicates. -/
lemma foldl_filter {α β : Type} (p : α → β → Bool) :
    ∀ (l : List α) (s : List β),
      l.foldl (fun acc x => acc.filter (p x)) s
        = s.filter (fun b => l.all (fun x => p x b)) := by
  intro l
  induction l with
  | nil => intro s; simp
  | cons x l ih =>
    intro s
    rw [List.foldl_cons, ih, List.filter_filter]
    refine List.filter_congr fun b _ => ?_
    simp [Bool.and_comm]

/-- `deleteFilesForJob` as a single filter over the original store. -/
lemma deleteFilesForJob_eq (s : Store) (u j : String) :
    deleteFilesForJob s u j
      = s.filter (fun r =>
          (listFilesForJob s u j).all (fun f => r.key ≠ makeKey u j f.type)) := by
  unfold deleteFilesForJob deleteFile
  exact foldl_filter (fun (f r : FileRec) => decide (r.key ≠ makeKey u j f.type))
    (listFilesForJob s u j) s

/-- `deleteFilesForUser` as a single filter over the original store. -/
lemma deleteFilesForUser_eq (s : Store) (u : String) :
    deleteFilesForUser s u
      = s.filter (fun r =>
          (listFilesForUser s u).all (fun q => r.key ≠ q.key)) := by
  unfold deleteFilesForUser
  exact foldl_filter (fun (q r : FileRec) => decide (r.key ≠ q.key))
    (listFilesForUser s u) s

/-- `getFile` right after `putFile` of the same triple finds exactly the
record `putFile` built. -/
lemma getFile_putFile_self (s : Store) (u j t : String) (F : StoredFile)
    (n : Nat) :
    getFile (putFile s u j t F n).2 u j t = some (mkRecord u j t F n) := by
  have hkey : (mkRecord u j t F n).key = makeKey u j t := rfl
  show ((s.filter fun q => q.key ≠ (mkRecord u j t F n).key) ++
      [mkRecord u j t F n]).find? (fun r => r.key = makeKey u j t)
      = some (mkRecord u j t F n)
  rw [List.find?_append]
  have h1 : (s.filter fun q => q.key ≠ (mkRecord u j t F n).key).find?
      (fun r => r.key = makeKey u j t) = none := by
    rw [List.find?_eq_none]
    intro x hx
    rw [List.mem_filter] at hx
    simpa [hkey] using hx.2
  rw [h1]
  simp [hkey]

/-! ## Claims -/

/-- C1: for every valid triple `(p, a, t)` and file `F`, `getFile` after
`putFile p a t F` returns a record whose payload (`blob` bytes) equals `F`'s
bytes, whose `filename` equals `F`'s name, and whose `mime` is `F`'s type,
defaulting to `application/octet-stream` when the type is unknown (empty). -/
theorem C1_get_after_put (s : Store) (p a t : String) (F : StoredFile)
    (now : Nat) (_h : validTriple p a t) :
    ∃ r : FileRec, getFile (putFile s p a t F now).2 p a t = some r ∧
      r.blob.bytes = F.bytes ∧ r.filename = F.name ∧
      r.mime = (if F.type = "" then "application/octet-stream" else F.type) :=
  ⟨mkRecord p a t F now, getFile_putFile_self s p a t F now, rfl, rfl, rfl⟩

/-- Witness for C1 at the spec's concrete scenario
`put("u1","j1","resume", {name:"r.pdf", bytes:[1,2,3]})`. -/
theorem C1_get_after_put_witness :
    ∃ r : FileRec,
      getFile (putFile [] "u1" "j1" "resume"
          ⟨"r.pdf", "application/pdf", [1, 2, 3]⟩ 7).2 "u1" "j1" "resume"
        = some r ∧
      r.blob.bytes = [1, 2, 3] ∧ r.filename = "r.pdf" ∧
      r.mime = (if "application/pdf" = "" then "application/octet-stream"
        else "application/pdf") :=
  C1_get_after_put [] "u1" "j1" "resume"
    ⟨"r.pdf", "application/pdf", [1, 2, 3]⟩ 7 (by decide)

/-- C8: absence is never an error. `deleteFile` on a triple with no stored
record leaves the store exactly unchanged (hence `deleteFile` is
idempotent), and `getFile` on the absent triple returns `none` as a normal
value rather than failing (both operations are total functions of the
store). -/
theorem C8_absent_is_no_error (s : Store) (p a t : String)
    (h : getFile s p a t = none) :
    deleteFile s p a t = s ∧
      deleteFile (deleteFile s p a t) p a t = deleteFile s p a t ∧
      getFile (deleteFile s p a t) p a t = none := by
  have hall : ∀ r ∈ s, ¬ r.key = makeKey p a t := by
    simpa [getFile, List.find?_eq_none] using h
  have h1 : deleteFile s p a t = s := by
    unfold deleteFile
    rw [List.filter_eq_self]
    intro r hr
    simpa using hall r hr
  exact ⟨h1, by simp only [h1], by rw [h1]; exact h⟩

/-- Witness for C8: deleting a triple that was never stored. -/
theorem C8_absent_is_no_error_witness :
    deleteFile [] "u1" "j1" "cover" = [] ∧
      deleteFile (deleteFile [] "u1" "j1" "cover") "u1" "j1" "cover"
        = deleteFile [] "u1" "j1" "cover" ∧
      getFile (deleteFile [] "u1" "j1" "cover") "u1" "j1" "cover" = none :=
  C8_absent_is_no_error [] "u1" "j1" "cover" (by decide)

/-- C9: frame property of a single `deleteFile`. Every record whose `key`
differs from the deleted triple's composite key is untouched: it occurs in
the resulting store exactly as often as before (so its payload, metadata and
index fields are preserved verbatim). -/
theorem C9_delete_frame (s : Store) (p a t : String) (r : FileRec)
    (h : r.key ≠ makeKey p a t) :
    List.count r (deleteFile s p a t) = List.count r s ∧
      (r ∈ deleteFile s p a t ↔ r ∈ s) := by
  have hp : (fun q : FileRec => decide (q.key ≠ makeKey p a t)) r = true := by
    simpa using h
  constructor
  · exact List.count_filter hp
  · unfold deleteFile
    rw [List.mem_filter]
    exact ⟨fun hx => hx.1, fun hx => ⟨hx, hp⟩⟩

/-- Witness for C9: deleting the resume leaves the cover record of the same
application intact. -/
theorem C9_delete_frame_witness :
    (mkRecord "u1" "j1" "cover" ⟨"c.pdf", "", [4]⟩ 3).key
        ≠ makeKey "u1" "j1" "resume" ∧
      List.count (mkRecord "u1" "j1" "cover" ⟨"c.pdf", "", [4]⟩ 3)
          (deleteFile [mkRecord "u1" "j1" "cover" ⟨"c.pdf", "", [4]⟩ 3]
            "u1" "j1" "resume")
        = List.count (mkRecord "u1" "j1" "cover" ⟨"c.pdf", "", [4]⟩ 3)
            [mkRecord "u1" "j1" "cover" ⟨"c.pdf", "", [4]⟩ 3] :=
  ⟨by decide,
    (C9_delete_frame [mkRecord "u1" "j1" "cover" ⟨"c.pdf", "", [4]⟩ 3]
      "u1" "j1" "resume" (mkRecord "u1" "j1" "cover" ⟨"c.pdf", "", [4]⟩ 3)
      (by decide)).1⟩

/-- C2 counterexample: `makeKey` concatenates with a bare `|` and never
escapes, so two distinct triples whose ids contain the separator collide:
`("a|b", "c", "resume")` and `("a", "b|c", "resume")` produce the same
composite key. -/
theorem C2_makeKey_collision :
    makeKey "a|b" "c" "resume" = makeKey "a" "b|c" "resume" ∧
      ¬("a|b" = "a" ∧ "c" = "b|c" ∧ "resume" = "resume") := by decide

/-- C2 amended: the key codec is injective on separator-free ids — for two
triples whose `userId` and `jobId` contain no `|`, equal composite keys
force equal triples. (The code does not escape the separator, so this holds
only under that restriction.) -/
theorem C2_makeKey_injective_barFree (p₁ a₁ t₁ p₂ a₂ t₂ : String)
    (hp₁ : barFree p₁) (ha₁ : barFree a₁)
    (hp₂ : barFree p₂) (ha₂ : barFree a₂)
    (h : makeKey p₁ a₁ t₁ = makeKey p₂ a₂ t₂) :
    p₁ = p₂ ∧ a₁ = a₂ ∧ t₁ = t₂ := by
  have hdata : p₁.data ++ '|' :: (a₁.data ++ '|' :: t₁.data)
      = p₂.data ++ '|' :: (a₂.data ++ '|' :: t₂.data) := by
    have := congrArg String.data h
    simpa [makeKey, String.data_append] using this
  obtain ⟨h1, h2⟩ :=
    append_cons_eq_append_cons_of_not_mem '|' _ _ _ _ hp₁ hp₂ hdata
  obtain ⟨h3, h4⟩ :=
    append_cons_eq_append_cons_of_not_mem '|' _ _ _ _ ha₁ ha₂ h2
  exact ⟨String.ext h1, String.ext h3, String.ext h4⟩

/-- Witness for the amended C2 at concrete separator-free ids. -/
theorem C2_makeKey_injective_barFree_witness :
    barFree "u1" ∧ barFree "j1" ∧ barFree "u2" ∧ barFree "j2" ∧
      ("u1" = "u2" ∧ "j1" = "j2" ∧ "resume" = "resume" ∨
        ¬makeKey "u1" "j1" "resume" = makeKey "u2" "j2" "resume") :=
  ⟨by decide, by decide, by decide, by decide, by
    by_cases h : makeKey "u1" "j1" "resume" = makeKey "u2" "j2" "resume"
    · exact Or.inl (C2_makeKey_injective_barFree "u1" "j1" "resume"
        "u2" "j2" "resume" (by decide) (by decide) (by decide) (by decide) h)
    · exact Or.inr h⟩

/-- C3: the claim says malformed input (`""` ids, a `documentType` outside
`{resume, cover, portfolio}`) makes `put` fail with `InvalidKey` before any
I/O and writes nothing — the module's own header comment also announces the
closed set `resume | cover | portfolio`. The code performs no validation at
all: `putFile` with the document type `"invoice"`, or with empty ids,
happily writes a record. -/
theorem C3_invalid_input_is_written :
    ¬validTriple "u" "j" "invoice" ∧
      (putFile [] "u" "j" "invoice" ⟨"x.pdf", "", [1]⟩ 0).2
        = [mkRecord "u" "j" "invoice" ⟨"x.pdf", "", [1]⟩ 0] ∧
      ¬validTriple "" "" "resume" ∧
      (putFile [] "" "" "resume" ⟨"x.pdf", "", [1]⟩ 0).2
        = [mkRecord "" "" "resume" ⟨"x.pdf", "", [1]⟩ 0] := by decide

/-- At most one record per composite key: the stored `key` fields are
pairwise distinct — the structural invariant IndexedDB maintains for an
object store declared with `keyPath: "key"`. -/
def AtMostOnePerKey (s : Store) : Prop := (s.map FileRec.key).Nodup

instance (s : Store) : Decidable (AtMostOnePerKey s) := by
  unfold AtMostOnePerKey; infer_instance

/-- `putFile` preserves key uniqueness: it first drops any record with the
new record's key, then appends the new record. -/
lemma putFile_preserves_atMostOne (s : Store) (u j t : String)
    (F : StoredFile) (n : Nat) (hs : AtMostOnePerKey s) :
    AtMostOnePerKey (putFile s u j t F n).2 := by
  unfold AtMostOnePerKey putFile at *
  simp only [List.map_append, List.map_cons, List.map_nil]
  rw [List.nodup_append]
  refine ⟨hs.sublist ((List.filter_sublist s).map FileRec.key),
    List.nodup_singleton _, ?_⟩
  intro x hx
  simp only [List.mem_map, List.mem_filter] at hx
  obtain ⟨q, ⟨_, hq⟩, rfl⟩ := hx
  simpa using hq

/-- Filtering the result of an upsert for the upserted key yields exactly
the new record. -/
lemma filter_key_put (s : Store) (r : FileRec) (k : String) (hr : r.key = k) :
    ((s.filter fun q => q.key ≠ r.key) ++ [r]).filter (fun q => q.key = k)
      = [r] := by
  subst hr
  rw [List.filter_append, List.filter_filter]
  have h0 : s.filter
      (fun q => decide (q.key = r.key) && decide (q.key ≠ r.key)) = [] := by
    rw [List.filter_eq_nil_iff]
    intro q _
    simp
  rw [h0]
  simp

/-- C4: `putFile` is an upsert on the composite key. Key uniqueness (at most
one record per composite key) is preserved, and after `putFile p a t F₁`
followed by `putFile p a t F₂` the store holds exactly one record for that
triple — the record built from `F₂` (last-write-wins) — `getFile` returns
it, and `listFilesForJob p a` reports it exactly once. -/
theorem C4_put_upsert (s : Store) (p a t : String) (F₁ F₂ : StoredFile)
    (n₁ n₂ : Nat) (hs : AtMostOnePerKey s) :
    AtMostOnePerKey (putFile (putFile s p a t F₁ n₁).2 p a t F₂ n₂).2 ∧
      ((putFile (putFile s p a t F₁ n₁).2 p a t F₂ n₂).2.filter
          (fun r => r.key = makeKey p a t)) = [mkRecord p a t F₂ n₂] ∧
      getFile (putFile (putFile s p a t F₁ n₁).2 p a t F₂ n₂).2 p a t
        = some (mkRecord p a t F₂ n₂) ∧
      ((listFilesForJob (putFile (putFile s p a t F₁ n₁).2 p a t F₂ n₂).2
            p a).filter (fun r => r.key = makeKey p a t))
        = [mkRecord p a t F₂ n₂] := by
  have hfilter : (putFile (putFile s p a t F₁ n₁).2 p a t F₂ n₂).2.filter
      (fun r => r.key = makeKey p a t) = [mkRecord p a t F₂ n₂] :=
    filter_key_put (putFile s p a t F₁ n₁).2 (mkRecord p a t F₂ n₂)
      (makeKey p a t) rfl
  refine ⟨putFile_preserves_atMostOne _ p a t F₂ n₂
      (putFile_preserves_atMostOne s p a t F₁ n₁ hs), hfilter,
    getFile_putFile_self _ p a t F₂ n₂, ?_⟩
  have hcomm : (listFilesForJob
        (putFile (putFile s p a t F₁ n₁).2 p a t F₂ n₂).2 p a).filter
        (fun r => r.key = makeKey p a t)
      = ((putFile (putFile s p a t F₁ n₁).2 p a t F₂ n₂).2.filter
          (fun r => r.key = makeKey p a t)).filter
          (fun r => r.jobKey = makeJobKey p a) := by
    unfold listFilesForJob
    rw [List.filter_filter, List.filter_filter]
    exact List.filter_congr fun r _ => Bool.and_comm _ _
  rw [hcomm, hfilter]
  have hjob : (mkRecord p a t F₂ n₂).jobKey = makeJobKey p a := rfl
  simp [hjob]

/-- Witness for C4: two successive uploads of the same triple into an empty
store. -/
theorem C4_put_upsert_witness :
    AtMostOnePerKey
        (putFile (putFile [] "u1" "j1" "resume" ⟨"r1", "", [1]⟩ 1).2
          "u1" "j1" "resume" ⟨"r2", "", [2]⟩ 2).2 ∧
      ((putFile (putFile [] "u1" "j1" "resume" ⟨"r1", "", [1]⟩ 1).2
            "u1" "j1" "resume" ⟨"r2", "", [2]⟩ 2).2.filter
          (fun r => r.key = makeKey "u1" "j1" "resume"))
        = [mkRecord "u1" "j1" "resume" ⟨"r2", "", [2]⟩ 2] ∧
      getFile (putFile (putFile [] "u1" "j1" "resume" ⟨"r1", "", [1]⟩ 1).2
          "u1" "j1" "resume" ⟨"r2", "", [2]⟩ 2).2 "u1" "j1" "resume"
        = some (mkRecord "u1" "j1" "resume" ⟨"r2", "", [2]⟩ 2) ∧
      ((listFilesForJob
            (putFile (putFile [] "u1" "j1" "resume" ⟨"r1", "", [1]⟩ 1).2
              "u1" "j1" "resume" ⟨"r2", "", [2]⟩ 2).2 "u1" "j1").filter
          (fun r => r.key = makeKey "u1" "j1" "resume"))
        = [mkRecord "u1" "j1" "resume" ⟨"r2", "", [2]⟩ 2] :=
  C4_put_upsert [] "u1" "j1" "resume" ⟨"r1", "", [1]⟩ ⟨"r2", "", [2]⟩ 1 2
    (by decide)

/-- Membership in the result of the application cascade delete. -/
lemma mem_deleteFilesForJob {s : Store} {u j : String} {r : FileRec} :
    r ∈ deleteFilesForJob s u j ↔
      r ∈ s ∧ ∀ f ∈ listFilesForJob s u j, r.key ≠ makeKey u j f.type := by
  rw [deleteFilesForJob_eq, List.mem_filter]
  simp [List.all_eq_true]

/-- Membership in the result of the profile cascade delete. -/
lemma mem_deleteFilesForUser {s : Store} {u : String} {r : FileRec} :
    r ∈ deleteFilesForUser s u ↔
      r ∈ s ∧ ∀ q ∈ listFilesForUser s u, r.key ≠ q.key := by
  rw [deleteFilesForUser_eq, List.mem_filter]
  simp [List.all_eq_true]

/-- C5: the application cascade. From any store whose records are
well-formed (their `key`/`jobKey` fields are the projections `putFile`
computes) with separator-free document types — every valid `documentType`
(`resume`, `cover`, `portfolio`) is separator-free — `deleteFilesForJob p a`
(including from a state with zero matching records) leaves
`listFilesForJob p a` empty and `getFile p a t` absent for every
separator-free document type `t`. -/
theorem C5_cascade_application (s : Store) (p a : String)
    (hwf : ∀ r ∈ s, WellFormed r ∧ barFree r.type) :
    listFilesForJob (deleteFilesForJob s p a) p a = [] ∧
      ∀ t : String, barFree t →
        getFile (deleteFilesForJob s p a) p a t = none := by
  have hmain : ∀ r ∈ deleteFilesForJob s p a, ¬ r.jobKey = makeJobKey p a := by
    intro r hr hjob
    rw [mem_deleteFilesForJob] at hr
    have hlist : r ∈ listFilesForJob s p a := by
      rw [listFilesForJob, List.mem_filter]
      exact ⟨hr.1, by simpa using hjob⟩
    have hkey : r.key = makeKey p a r.type := by
      rw [(hwf r hr.1).1.1, hjob]; rfl
    exact hr.2 r hlist hkey
  constructor
  · rw [listFilesForJob, List.filter_eq_nil_iff]
    intro r hr
    simpa using hmain r hr
  · intro t ht
    rw [getFile, List.find?_eq_none]
    intro r hr
    simp only [decide_eq_true_eq]
    intro hk
    have hrs : r ∈ s := (mem_deleteFilesForJob.mp hr).1
    obtain ⟨hw, htype⟩ := hwf r hrs
    have heq : r.jobKey ++ "|" ++ r.type = makeJobKey p a ++ "|" ++ t := by
      rw [← hw.1]; exact hk
    obtain ⟨hjob, -⟩ := sep_append_inj_right htype ht heq
    exact hmain r hr hjob

/-- Witness for C5: cascade-deleting the only application with a stored
resume, then observing the empty list and the absent `get`. -/
theorem C5_cascade_application_witness :
    listFilesForJob
        (deleteFilesForJob [mkRecord "u1" "j1" "resume" ⟨"r", "", [1]⟩ 0]
          "u1" "j1") "u1" "j1" = [] ∧
      getFile (deleteFilesForJob [mkRecord "u1" "j1" "resume" ⟨"r", "", [1]⟩ 0]
          "u1" "j1") "u1" "j1" "resume" = none :=
  ⟨(C5_cascade_application [mkRecord "u1" "j1" "resume" ⟨"r", "", [1]⟩ 0]
      "u1" "j1" (by decide)).1,
    (C5_cascade_application [mkRecord "u1" "j1" "resume" ⟨"r", "", [1]⟩ 0]
      "u1" "j1" (by decide)).2 "resume" (by decide)⟩

/-- C6: the profile cascade. From any store whose records are well-formed
with separator-free `userId`/`jobId` fields (the ids the rest of the system
produces never contain `|`), `deleteFilesForUser p` — one `readwrite`
transaction deleting each listed record by its own key — leaves
`listFilesForUser p` empty and `listFilesForJob p a` empty for every
application `a`. -/
theorem C6_cascade_profile (s : Store) (p : String)
    (hwf : ∀ r ∈ s, WellFormed r ∧ barFree r.userId ∧ barFree r.jobId) :
    listFilesForUser (deleteFilesForUser s p) p = [] ∧
      ∀ a : String, listFilesForJob (deleteFilesForUser s p) p a = [] := by
  have hdel : ∀ r ∈ deleteFilesForUser s p, ¬ r.userId = p := by
    intro r hr hu
    rw [mem_deleteFilesForUser] at hr
    have hrl : r ∈ listFilesForUser s p := by
      rw [listFilesForUser, List.mem_filter]
      exact ⟨hr.1, by simpa using hu⟩
    exact hr.2 r hrl rfl
  constructor
  · rw [listFilesForUser, List.filter_eq_nil_iff]
    intro r hr
    simpa using hdel r hr
  · intro a
    rw [listFilesForJob, List.filter_eq_nil_iff]
    intro r hr
    simp only [decide_eq_true_eq]
    intro hjob
    have hrs : r ∈ s := (mem_deleteFilesForUser.mp hr).1
    obtain ⟨hw, hu, hj⟩ := hwf r hrs
    have heq : r.userId ++ "|" ++ r.jobId = p ++ "|" ++ a := by
      rw [← hw.2]; exact hjob
    rcases sep_append_cases hu heq with ⟨h1, -⟩ | ⟨w, hw2⟩
    · exact hdel r hr h1
    · exact hj (by
        rw [hw2]
        exact List.mem_append_right w (List.mem_cons_self '|' _))

/-- Witness for C6: cascade-deleting a profile owning one record while
another profile's record exists. -/
theorem C6_cascade_profile_witness :
    listFilesForUser
        (deleteFilesForUser [mkRecord "u1" "j1" "cover" ⟨"c", "", [2]⟩ 0,
          mkRecord "u2" "j1" "cover" ⟨"d", "", [3]⟩ 0] "u1") "u1" = [] ∧
      listFilesForJob
        (deleteFilesForUser [mkRecord "u1" "j1" "cover" ⟨"c", "", [2]⟩ 0,
          mkRecord "u2" "j1" "cover" ⟨"d", "", [3]⟩ 0] "u1") "u1" "j1" = [] :=
  ⟨(C6_cascade_profile [mkRecord "u1" "j1" "cover" ⟨"c", "", [2]⟩ 0,
      mkRecord "u2" "j1" "cover" ⟨"d", "", [3]⟩ 0] "u1" (by decide)).1,
    (C6_cascade_profile [mkRecord "u1" "j1" "cover" ⟨"c", "", [2]⟩ 0,
      mkRecord "u2" "j1" "cover" ⟨"d", "", [3]⟩ 0] "u1" (by decide)).2 "j1"⟩

/-- C7 counterexample: with unescaped `|`-concatenation the `byJob` index
key collides across distinct pairs: the record stored for the pair
`("a", "b|c")` is returned by `listFilesForJob "a|b" "c"`, a different
(profile, application) pair. -/
theorem C7_list_job_foreign_record :
    ∃ r ∈ listFilesForJob (putFile [] "a" "b|c" "resume" ⟨"f", "", []⟩ 0).2
        "a|b" "c", ¬(r.userId = "a|b" ∧ r.jobId = "c") := by decide

/-- C7 amended: `listFilesForJob p a` returns only records of the pair
`(p, a)`, provided the stored records are well-formed and their
`userId`/`jobId` contain no separator `|` (with bare concatenation, ids
containing the separator can make distinct pairs share a job key). -/
theorem C7_list_job_sound (s : Store) (p a : String)
    (hwf : ∀ r ∈ s, WellFormed r ∧ barFree r.userId ∧ barFree r.jobId) :
    ∀ r ∈ listFilesForJob s p a, r.userId = p ∧ r.jobId = a := by
  intro r hr
  rw [listFilesForJob, List.mem_filter] at hr
  obtain ⟨hw, hu, hj⟩ := hwf r hr.1
  have hjob : r.jobKey = makeJobKey p a := by simpa using hr.2
  have heq : r.userId ++ "|" ++ r.jobId = p ++ "|" ++ a := by
    rw [← hw.2]; exact hjob
  rcases sep_append_cases hu heq with ⟨h1, h2⟩ | ⟨w, hw2⟩
  · exact ⟨h1, h2⟩
  · exact absurd (by
      rw [hw2]
      exact List.mem_append_right w (List.mem_cons_self '|' _)) hj

/-- Witness for the amended C7 at a concrete one-record store and the
record it lists. -/
theorem C7_list_job_sound_witness :
    (mkRecord "u1" "j1" "portfolio" ⟨"p", "", [9]⟩ 4).userId = "u1" ∧
      (mkRecord "u1" "j1" "portfolio" ⟨"p", "", [9]⟩ 4).jobId = "j1" :=
  C7_list_job_sound [mkRecord "u1" "j1" "portfolio" ⟨"p", "", [9]⟩ 4]
    "u1" "j1" (by decide) (mkRecord "u1" "j1" "portfolio" ⟨"p", "", [9]⟩ 4)
    (by decide)

/-- C10: frame property of the profile cascade. On a store satisfying the
primary-key invariant (no two records share a `key`), `deleteFilesForUser p`
removes exactly the records whose stored `userId` field equals `p` and
leaves every other record — payload, metadata and index fields — unchanged,
in order. -/
theorem C10_cascade_profile_frame (s : Store) (p : String)
    (hk : KeyFunctional s) :
    deleteFilesForUser s p = s.filter (fun r => r.userId ≠ p) := by
  rw [deleteFilesForUser_eq]
  refine List.filter_congr fun r hr => ?_
  by_cases hu : r.userId = p
  · have hrl : r ∈ listFilesForUser s p := by
      rw [listFilesForUser, List.mem_filter]
      exact ⟨hr, by simpa using hu⟩
    have hall : (listFilesForUser s p).all
        (fun q => decide (r.key ≠ q.key)) = false := by
      rw [List.all_eq_false]
      exact ⟨r, hrl, by simp⟩
    rw [hall]
    simp [hu]
  · have hall : (listFilesForUser s p).all
        (fun q => decide (r.key ≠ q.key)) = true := by
      rw [List.all_eq_true]
      intro q hq
      simp only [decide_eq_true_eq]
      intro hkey
      have hqs : q ∈ s := (List.mem_filter.mp hq).1
      have hrq : r = q := hk r hr q hqs hkey
      have hqp : q.userId = p := by
        simpa using (List.mem_filter.mp hq).2
      exact hu (by rw [hrq]; exact hqp)
    rw [hall]
    simp [hu]

/-- Witness for C10: deleting one profile leaves the other profile's record
in place. -/
theorem C10_cascade_profile_frame_witness :
    deleteFilesForUser [mkRecord "u1" "j1" "resume" ⟨"r", "", [1]⟩ 0,
        mkRecord "u2" "j2" "cover" ⟨"c", "", [2]⟩ 1] "u1"
      = ([mkRecord "u1" "j1" "resume" ⟨"r", "", [1]⟩ 0,
          mkRecord "u2" "j2" "cover" ⟨"c", "", [2]⟩ 1].filter
          (fun r => r.userId ≠ "u1")) :=
  C10_cascade_profile_frame [mkRecord "u1" "j1" "resume" ⟨"r", "", [1]⟩ 0,
    mkRecord "u2" "j2" "cover" ⟨"c", "", [2]⟩ 1] "u1" (by decide)

end Idb
